import Mathlib

/-!
Verification of the float-hash-of library: a bit-level transform mapping a
64-bit hash to a bit pattern that is always a safe IEEE-754 double
(never NaN, infinity, subnormal, or zero), plus a phantom-typed wrapper.

Machine integers (`u64`) are modelled as `Nat`; all operations used by the
source (`&`, `|`, `^`) never overflow, so no reduction modulo `2^64` is
needed. An `f64` value produced by `f64::from_bits` is modelled by its bit
pattern, wrapped in the structure `Float64` (the source performs no
floating-point arithmetic, only bit reinterpretation, so this is exact).
-/

namespace FloatHash

/-- Mask of the top two bits of the 11-bit exponent field
(`0b0_11000000000_0...0` in the source). -/
def EXP_2 : Nat := 0x6000000000000000

/-- Mask of the top bit of the 11-bit exponent field
(`0b0_10000000000_0...0` in the source). -/
def EXP_1 : Nat := 0x4000000000000000

/-- The all-zero pattern (`0b0_00000000000_0...0` in the source). -/
def EXP_0 : Nat := 0x0000000000000000

/-- The bit-safety transform `hash_63_bits` from the source: a 3-way match
on `hash & EXP_2`. -/
def hash_63_bits (hash : Nat) : Nat :=
  if hash &&& EXP_2 = EXP_0 then hash ||| EXP_1
  else if hash &&& EXP_2 = EXP_2 then hash ^^^ EXP_1
  else hash

/-- An `f64` value, modelled by its 64-bit pattern. -/
structure Float64 where
  bits : Nat
deriving DecidableEq

/-- `f64::from_bits`. -/
def f64_from_bits (b : Nat) : Float64 := ⟨b⟩

/-- `hash_u64_to_f64` from the source. -/
def hash_u64_to_f64 (hash : Nat) : Float64 :=
  f64_from_bits (hash_63_bits hash)

/-- Sign bit (bit 63) of a 64-bit double pattern. -/
def signBit (b : Nat) : Bool := b.testBit 63

/-- The 11-bit exponent field (bits 52..62) of a 64-bit double pattern. -/
def expField (b : Nat) : Nat := (b >>> 52) &&& 0x7FF

/-- The 52-bit mantissa field (bits 0..51) of a 64-bit double pattern. -/
def mantissaField (b : Nat) : Nat := b &&& 0xFFFFFFFFFFFFF

/-- IEEE-754 binary64: the pattern denotes NaN iff the exponent field is
all ones and the mantissa is nonzero. -/
def isNaNBits (b : Nat) : Prop := expField b = 0x7FF ∧ mantissaField b ≠ 0

/-- IEEE-754 binary64: the pattern denotes an infinity iff the exponent
field is all ones and the mantissa is zero. -/
def isInfBits (b : Nat) : Prop := expField b = 0x7FF ∧ mantissaField b = 0

/-- IEEE-754 binary64: the pattern denotes a (signed) zero iff the exponent
field is all zeros and the mantissa is zero. -/
def isZeroBits (b : Nat) : Prop := expField b = 0 ∧ mantissaField b = 0

/-- IEEE-754 binary64: the pattern denotes a subnormal iff the exponent
field is all zeros and the mantissa is nonzero. -/
def isSubnormalBits (b : Nat) : Prop := expField b = 0 ∧ mantissaField b ≠ 0

/-- The rational value denoted by a normal binary64 bit pattern. -/
def floatVal (b : Nat) : ℚ :=
  (if signBit b then (-1 : ℚ) else 1) * (1 + (mantissaField b : ℚ) / 2 ^ 52)
    * 2 ^ ((expField b : ℤ) - 1023)

/-- The external `HashOf<T>` wrapper (from the `hash_of` dependency): a typed
carrier of a plain 64-bit hash, with `to_inner` as the field accessor. -/
structure HashOf (T : Type) where
  to_inner : Nat

/-- The wrapper `FloatHashOf<T>`: stores the transformed bits as a
`NonZeroU64`, modelled by its underlying 64-bit value (the non-zeroness is
the subject of theorem C2, not baked into the type). -/
structure FloatHashOf (T : Type) where
  hash : Nat

/-- `FloatHashOf::into_inner`: `f64::from_bits(self.hash.get())`. -/
def FloatHashOf.into_inner {T : Type} (s : FloatHashOf T) : Float64 :=
  f64_from_bits s.hash

/-- `impl From<HashOf<T>> for FloatHashOf<T>`: transforms the inner hash and
stores it (the source wraps the result with `NonZeroU64::new_unchecked`). -/
def FloatHashOf.fromHashOf {T : Type} (h : HashOf T) : FloatHashOf T :=
  ⟨hash_63_bits h.to_inner⟩

/-- Modelled from the spec: the upstream hashing dependency
(`HashOf::<Q>::from(value)` of the external `hash_of` crate) is an
unspecified function producing a 64-bit hash of a value; it is taken here
as an arbitrary function `hashFn` from values to 64-bit hashes. -/
def HashOf.fromValue {T Q : Type} (hashFn : T → Nat) (value : T) : HashOf Q :=
  ⟨hashFn value⟩

/-- `impl From<&T> for FloatHashOf<Q>`: hash the value with the external
dependency, then convert through `From<HashOf<Q>>`. -/
def FloatHashOf.fromRef {T Q : Type} (hashFn : T → Nat) (value : T) :
    FloatHashOf Q :=
  FloatHashOf.fromHashOf (HashOf.fromValue hashFn value)

/-! ### Bit-level helper lemmas -/

lemma testBit_EXP_2 (j : Nat) :
    EXP_2.testBit j = (decide (j = 61) || decide (j = 62)) := by
  have h : EXP_2 = 2 ^ 61 ||| 2 ^ 62 := by decide
  rw [h, Nat.testBit_or, Nat.testBit_two_pow, Nat.testBit_two_pow,
    decide_eq_decide.mpr (@eq_comm Nat 61 j), decide_eq_decide.mpr (@eq_comm Nat 62 j)]

lemma testBit_EXP_1 (j : Nat) : EXP_1.testBit j = decide (j = 62) := by
  have h : EXP_1 = 2 ^ 62 := by decide
  rw [h, Nat.testBit_two_pow, decide_eq_decide.mpr (@eq_comm Nat 62 j)]

lemma land_EXP_2_eq_zero_iff (h : Nat) :
    h &&& EXP_2 = 0 ↔ h.testBit 61 = false ∧ h.testBit 62 = false := by
  constructor
  · intro hz
    constructor
    · have h61 := congrArg (fun n => n.testBit 61) hz
      simpa [Nat.testBit_and, testBit_EXP_2] using h61
    · have h62 := congrArg (fun n => n.testBit 62) hz
      simpa [Nat.testBit_and, testBit_EXP_2] using h62
  · rintro ⟨h61, h62⟩
    apply Nat.eq_of_testBit_eq
    intro j
    rw [Nat.testBit_and, testBit_EXP_2, Nat.zero_testBit]
    rcases eq_or_ne j 61 with hj | hj
    · subst hj; simp [h61]
    · rcases eq_or_ne j 62 with hj2 | hj2
      · subst hj2; simp [h62]
      · simp [hj, hj2]

lemma land_EXP_2_eq_EXP_2_iff (h : Nat) :
    h &&& EXP_2 = EXP_2 ↔ h.testBit 61 = true ∧ h.testBit 62 = true := by
  constructor
  · intro hz
    constructor
    · have h61 := congrArg (fun n => n.testBit 61) hz
      simpa [Nat.testBit_and, testBit_EXP_2] using h61
    · have h62 := congrArg (fun n => n.testBit 62) hz
      simpa [Nat.testBit_and, testBit_EXP_2] using h62
  · rintro ⟨h61, h62⟩
    apply Nat.eq_of_testBit_eq
    intro j
    rw [Nat.testBit_and, testBit_EXP_2]
    rcases eq_or_ne j 61 with hj | hj
    · subst hj; simp [h61]
    · rcases eq_or_ne j 62 with hj2 | hj2
      · subst hj2; simp [h62]
      · simp [hj, hj2]

lemma testBit_hash_63_bits_of_ne (h j : Nat) (hj : j ≠ 62) :
    (hash_63_bits h).testBit j = h.testBit j := by
  unfold hash_63_bits
  split
  · rw [Nat.testBit_or, testBit_EXP_1]
    simp [hj]
  · split
    · rw [Nat.testBit_xor, testBit_EXP_1]
      simp [hj]
    · rfl

lemma hash_63_bits_of_mixed_mask (h : Nat) (h0 : h &&& EXP_2 ≠ 0)
    (h2 : h &&& EXP_2 ≠ EXP_2) : hash_63_bits h = h := by
  unfold hash_63_bits
  rw [if_neg (by simpa [EXP_0] using h0), if_neg h2]

lemma hash_63_bits_mixed (h : Nat) :
    (hash_63_bits h).testBit 61 ≠ (hash_63_bits h).testBit 62 := by
  by_cases h0 : h &&& EXP_2 = 0
  · obtain ⟨h61, h62⟩ := (land_EXP_2_eq_zero_iff h).mp h0
    have e : hash_63_bits h = h ||| EXP_1 := by
      unfold hash_63_bits
      rw [if_pos (by simpa [EXP_0] using h0)]
    rw [e, Nat.testBit_or, Nat.testBit_or, testBit_EXP_1, testBit_EXP_1]
    simp [h61, h62]
  · by_cases h2 : h &&& EXP_2 = EXP_2
    · obtain ⟨h61, h62⟩ := (land_EXP_2_eq_EXP_2_iff h).mp h2
      have e : hash_63_bits h = h ^^^ EXP_1 := by
        unfold hash_63_bits
        rw [if_neg (by simpa [EXP_0] using h0), if_pos h2]
      rw [e, Nat.testBit_xor, Nat.testBit_xor, testBit_EXP_1, testBit_EXP_1]
      simp [h61, h62]
    · rw [hash_63_bits_of_mixed_mask h h0 h2]
      intro hcontra
      cases hb61 : h.testBit 61 <;> cases hb62 : h.testBit 62
      · exact h0 ((land_EXP_2_eq_zero_iff h).mpr ⟨hb61, hb62⟩)
      · rw [hb61, hb62] at hcontra; exact absurd hcontra (by decide)
      · rw [hb61, hb62] at hcontra; exact absurd hcontra (by decide)
      · exact h2 ((land_EXP_2_eq_EXP_2_iff h).mpr ⟨hb61, hb62⟩)

lemma testBit_expField (b i : Nat) (hi : i < 11) :
    (expField b).testBit i = b.testBit (52 + i) := by
  unfold expField
  rw [Nat.testBit_and, Nat.testBit_shiftRight]
  have hmask : (0x7FF : Nat) = 2 ^ 11 - 1 := by decide
  rw [hmask, Nat.testBit_two_pow_sub_one]
  simp [hi]

lemma expField_ne_zero_of_bit (b : Nat) (i : Nat) (hi : i < 11)
    (hb : b.testBit (52 + i) = true) : expField b ≠ 0 := by
  intro hz
  have := testBit_expField b i hi
  rw [hz, Nat.zero_testBit, hb] at this
  exact absurd this (by decide)

lemma expField_ne_allones_of_bit (b : Nat) (i : Nat) (hi : i < 11)
    (hb : b.testBit (52 + i) = false) : expField b ≠ 0x7FF := by
  intro hz
  have := testBit_expField b i hi
  rw [hz] at this
  have hone : (0x7FF : Nat).testBit i = true := by
    have hmask : (0x7FF : Nat) = 2 ^ 11 - 1 := by decide
    rw [hmask, Nat.testBit_two_pow_sub_one]
    simp [hi]
  rw [hone, hb] at this
  exact absurd this (by decide)

lemma hash_63_bits_expField_ne_zero (h : Nat) :
    expField (hash_63_bits h) ≠ 0 := by
  have hm := hash_63_bits_mixed h
  cases hb61 : (hash_63_bits h).testBit 61
  · cases hb62 : (hash_63_bits h).testBit 62
    · rw [hb61, hb62] at hm; exact absurd rfl hm
    · exact expField_ne_zero_of_bit _ 10 (by omega) hb62
  · exact expField_ne_zero_of_bit _ 9 (by omega) hb61

lemma hash_63_bits_expField_ne_allones (h : Nat) :
    expField (hash_63_bits h) ≠ 0x7FF := by
  have hm := hash_63_bits_mixed h
  cases hb61 : (hash_63_bits h).testBit 61
  · exact expField_ne_allones_of_bit _ 9 (by omega) hb61
  · cases hb62 : (hash_63_bits h).testBit 62
    · exact expField_ne_allones_of_bit _ 10 (by omega) hb62
    · rw [hb61, hb62] at hm; exact absurd rfl hm

lemma hash_63_bits_ne_zero (h : Nat) : hash_63_bits h ≠ 0 := by
  intro hz
  have := hash_63_bits_expField_ne_zero h
  rw [hz] at this
  exact this (by decide)

lemma hash_63_bits_preimage (h : Nat) :
    h = hash_63_bits h ∨ h = hash_63_bits h ^^^ EXP_1 := by
  by_cases h0 : h &&& EXP_2 = 0
  · right
    obtain ⟨_, h62⟩ := (land_EXP_2_eq_zero_iff h).mp h0
    have e : hash_63_bits h = h ||| EXP_1 := by
      unfold hash_63_bits
      rw [if_pos (by simpa [EXP_0] using h0)]
    rw [e]
    apply Nat.eq_of_testBit_eq
    intro j
    rw [Nat.testBit_xor, Nat.testBit_or, testBit_EXP_1]
    rcases eq_or_ne j 62 with hj | hj
    · subst hj; simp [h62]
    · simp [hj]
  · by_cases h2 : h &&& EXP_2 = EXP_2
    · right
      have e : hash_63_bits h = h ^^^ EXP_1 := by
        unfold hash_63_bits
        rw [if_neg (by simpa [EXP_0] using h0), if_pos h2]
      rw [e, Nat.xor_assoc, Nat.xor_self, Nat.xor_zero]
    · left
      exact (hash_63_bits_of_mixed_mask h h0 h2).symm

end FloatHash

namespace FloatHash

/-! ### Claim theorems -/

/-- C1: for every 64-bit input `h`, the output of the bit-safety transform
(`hash_63_bits`, exposed as `hash_u64_to_f64`), read as an IEEE-754 double,
is not NaN, not an infinity, not a subnormal and not a signed zero;
equivalently its 11-bit exponent field is neither all-zeros nor all-ones. -/
theorem hash_u64_to_f64_always_safe (h : Nat) :
    ¬isNaNBits (hash_u64_to_f64 h).bits ∧ ¬isInfBits (hash_u64_to_f64 h).bits ∧
    ¬isSubnormalBits (hash_u64_to_f64 h).bits ∧ ¬isZeroBits (hash_u64_to_f64 h).bits ∧
    expField (hash_u64_to_f64 h).bits ≠ 0 ∧ expField (hash_u64_to_f64 h).bits ≠ 0x7FF := by
  have hz := hash_63_bits_expField_ne_zero h
  have ho := hash_63_bits_expField_ne_allones h
  exact ⟨fun hc => ho hc.1, fun hc => ho hc.1, fun hc => hz hc.1, fun hc => hz hc.1, hz, ho⟩

/-- C2: for every 64-bit input the transform never returns the all-zero
pattern, so the wrapper's stored representation is never zero and the
precondition of `NonZeroU64::new_unchecked` in the `From<HashOf<T>>`
construction path always holds. -/
theorem stored_hash_never_zero (T : Type) (h : Nat) :
    hash_63_bits h ≠ 0 ∧ (FloatHashOf.fromHashOf (⟨h⟩ : HashOf T)).hash ≠ 0 :=
  ⟨hash_63_bits_ne_zero h, hash_63_bits_ne_zero h⟩

/-- C3: the transform is a 3-way branch on `h &&& EXP_2`: all-zero masks OR
in `EXP_1`, full-`EXP_2` masks XOR with `EXP_1`, and anything else passes
through unchanged; `EXP_1` is the single bit `2^62` (as the worked example
for input 0 determines). -/
theorem hash_63_bits_three_way_branch (h : Nat) :
    EXP_1 = 2 ^ 62 ∧
    (h &&& EXP_2 = 0 → hash_63_bits h = h ||| EXP_1) ∧
    (h &&& EXP_2 = EXP_2 → hash_63_bits h = h ^^^ EXP_1) ∧
    (h &&& EXP_2 ≠ 0 → h &&& EXP_2 ≠ EXP_2 → hash_63_bits h = h) := by
  refine ⟨by decide, ?_, ?_, hash_63_bits_of_mixed_mask h⟩
  · intro h0
    unfold hash_63_bits
    rw [if_pos (by simpa [EXP_0] using h0)]
  · intro h2
    unfold hash_63_bits
    by_cases h0 : h &&& EXP_2 = EXP_0
    · rw [h2] at h0; exact absurd h0.symm (by decide)
    · rw [if_neg h0, if_pos h2]

/-- C3 witness: the first branch evaluated at input 0. -/
theorem hash_63_bits_three_way_branch_witness :
    hash_63_bits 0 = 0 ||| EXP_1 :=
  (hash_63_bits_three_way_branch 0).2.1 (by decide)

/-- C4: any input whose exponent field has mixed top two bits (bits 9 and
10 of the 11-bit field differ) passes through the transform unchanged. -/
theorem hash_63_bits_id_on_mixed (h : Nat)
    (hmix : (expField h).testBit 9 ≠ (expField h).testBit 10) :
    hash_63_bits h = h := by
  rw [testBit_expField h 9 (by omega), testBit_expField h 10 (by omega)] at hmix
  apply hash_63_bits_of_mixed_mask
  · intro hz
    obtain ⟨a, b⟩ := (land_EXP_2_eq_zero_iff h).mp hz
    rw [a, b] at hmix
    exact hmix rfl
  · intro hz
    obtain ⟨a, b⟩ := (land_EXP_2_eq_EXP_2_iff h).mp hz
    rw [a, b] at hmix
    exact hmix rfl

/-- C4 witness: input `2^62` has mixed top exponent bits and is fixed. -/
theorem hash_63_bits_id_on_mixed_witness :
    hash_63_bits 0x4000000000000000 = 0x4000000000000000 :=
  hash_63_bits_id_on_mixed 0x4000000000000000 (by decide)

/-- C5: the transform preserves the sign bit (bit 63) and all 52 mantissa
bits (bits 0..51); any bit where output and input differ lies in the
exponent field (bits 52..62). -/
theorem hash_63_bits_frame (h : Nat) :
    signBit (hash_63_bits h) = signBit h ∧
    mantissaField (hash_63_bits h) = mantissaField h ∧
    (∀ j, (hash_63_bits h).testBit j ≠ h.testBit j → 52 ≤ j ∧ j ≤ 62) := by
  refine ⟨testBit_hash_63_bits_of_ne h 63 (by omega), ?_, ?_⟩
  · apply Nat.eq_of_testBit_eq
    intro j
    unfold mantissaField
    rw [Nat.testBit_and, Nat.testBit_and,
      show (0xFFFFFFFFFFFFF : Nat) = 2 ^ 52 - 1 by decide,
      Nat.testBit_two_pow_sub_one]
    by_cases hj : j < 52
    · rw [testBit_hash_63_bits_of_ne h j (by omega)]
    · simp [hj]
  · intro j hdiff
    rcases eq_or_ne j 62 with hj | hj
    · subst hj; omega
    · exact absurd (testBit_hash_63_bits_of_ne h j hj) hdiff

/-- C5 witness: at input 0 bit 62 differs, and 62 lies in the exponent
field. -/
theorem hash_63_bits_frame_witness : 52 ≤ 62 ∧ 62 ≤ 62 :=
  (hash_63_bits_frame 0).2.2 62 (by decide)

/-- C6: on the all-zero input the transform yields exactly
`0x4000000000000000`, whose binary64 value is the normal, finite, nonzero
number 2. -/
theorem hash_63_bits_zero_gives_two :
    hash_63_bits 0 = 0x4000000000000000 ∧
    floatVal 0x4000000000000000 = 2 ∧
    expField 0x4000000000000000 ≠ 0 ∧
    expField 0x4000000000000000 ≠ 0x7FF ∧
    ¬isZeroBits 0x4000000000000000 := by
  have hs : signBit 0x4000000000000000 = false := by decide
  have hm : mantissaField 0x4000000000000000 = 0 := by decide
  have he : expField 0x4000000000000000 = 1024 := by decide
  refine ⟨by decide, ?_, by decide, by decide,
    fun hc => by have h1 := hc.1; rw [he] at h1; exact absurd h1 (by decide)⟩
  unfold floatVal
  rw [hs, hm, he]
  norm_num

/-- C7: the two construction paths agree and the accessor inverts storage:
converting a `HashOf` carrying `h` and reading `into_inner` gives
`hash_u64_to_f64 h`, and constructing from a hashable reference equals
hashing first and then converting. -/
theorem construction_paths_agree (T V : Type) (hashFn : V → Nat) (h : Nat) (v : V) :
    (FloatHashOf.fromHashOf (⟨h⟩ : HashOf T)).into_inner = hash_u64_to_f64 h ∧
    (FloatHashOf.fromRef hashFn v : FloatHashOf T) =
      FloatHashOf.fromHashOf (HashOf.fromValue hashFn v) :=
  ⟨rfl, rfl⟩

/-- C8: equality of `FloatHashOf` wrappers is exactly bit-for-bit equality
of the stored 64-bit values. -/
theorem floatHashOf_eq_iff_bits_eq (T : Type) (a b : FloatHashOf T) :
    a = b ↔ a.hash = b.hash := by
  constructor
  · intro h; rw [h]
  · intro h; cases a; cases b; simp_all

/-- C9: the transform loses at most one bit: no output has three pairwise
distinct preimages. -/
theorem hash_63_bits_at_most_two_preimages (h1 h2 h3 : Nat)
    (d12 : h1 ≠ h2) (d13 : h1 ≠ h3) (d23 : h2 ≠ h3) :
    ¬(hash_63_bits h1 = hash_63_bits h2 ∧ hash_63_bits h2 = hash_63_bits h3) := by
  rintro ⟨e12, e23⟩
  have q1 := hash_63_bits_preimage h1
  have q2 := hash_63_bits_preimage h2
  have q3 := hash_63_bits_preimage h3
  rw [← e12] at q2
  rw [← e23, ← e12] at q3
  rcases q1 with p1 | p1 <;> rcases q2 with p2 | p2 <;> rcases q3 with p3 | p3 <;>
    first
      | exact d12 (p1.trans p2.symm)
      | exact d13 (p1.trans p3.symm)
      | exact d23 (p2.trans p3.symm)

/-- C9 witness: the inputs 1, 2, 3 are pairwise distinct and do not all
map to one output. -/
theorem hash_63_bits_at_most_two_preimages_witness :
    ¬(hash_63_bits 1 = hash_63_bits 2 ∧ hash_63_bits 2 = hash_63_bits 3) :=
  hash_63_bits_at_most_two_preimages 1 2 3 (by decide) (by decide) (by decide)

/-- C10: the transform is globally idempotent: applying it twice equals
applying it once, since every output lands in the mixed region the
transform leaves unchanged. -/
theorem hash_63_bits_idempotent (h : Nat) :
    hash_63_bits (hash_63_bits h) = hash_63_bits h := by
  have hm := hash_63_bits_mixed h
  apply hash_63_bits_of_mixed_mask
  · intro hz
    obtain ⟨a, b⟩ := (land_EXP_2_eq_zero_iff _).mp hz
    rw [a, b] at hm
    exact hm rfl
  · intro hz
    obtain ⟨a, b⟩ := (land_EXP_2_eq_EXP_2_iff _).mp hz
    rw [a, b] at hm
    exact hm rfl

end FloatHash
